import Mathlib

/-!
# Export dispatch of `services/export.go`

A shallow embedding of the export-type parser (`ExportGetArgsFromParams`), the
dispatcher (`Export.Get`) and the six exporters of package `services`, followed by
the properties proved about them.

Conventions of the embedding.

* A Go `string` is a Lean `String`; `ExportType` is a named string type, so it is an
  abbreviation of `String`.
* A Go result pair `(*T, error)` is a `Result (Option T)`: `ok none` is `(nil, nil)`,
  `ok (some v)` is `(&v, nil)`, `error e` is `(nil, e)`. A method call through a nil
  `*MyURL` is the run-time panic `nilDeref`.
* A Go `map[string]T` is a function `String → Option T`.
* Collaborators whose declarations are outside `export.go` (the URL builder, the tag
  builder, scheme and domain selection, the methods of `MyURL` and `url.Values`)
  are parameters of the embedding.
* Where a property speaks of a collaborator being invoked, the embedding records the
  calls in the order the code makes them.
-/

set_option autoImplicit false

namespace Services

/-! ## Library functions of package `strings` -/

namespace Strings

/-- The code points for which Go's `unicode.IsSpace` answers true. -/
def IsSpace (c : Char) : Bool :=
  let n := c.toNat
  n = 0x09 || n = 0x0A || n = 0x0B || n = 0x0C || n = 0x0D || n = 0x20 ||
  n = 0x85 || n = 0xA0 || n = 0x1680 || (0x2000 ≤ n && n ≤ 0x200A) ||
  n = 0x2028 || n = 0x2029 || n = 0x202F || n = 0x205F || n = 0x3000

/-- Drop from both ends of a character list every character satisfying `p`. -/
def trimChars (p : Char → Bool) (cs : List Char) : List Char :=
  ((cs.dropWhile p).reverse.dropWhile p).reverse

/-- Go's `strings.TrimSpace`: remove leading and trailing white space. -/
def TrimSpace (s : String) : String :=
  String.mk (trimChars IsSpace s.data)

/-- Go's `strings.Trim(s, cutset)`: remove leading and trailing characters of `cutset`. -/
def Trim (s : String) (cutset : String) : String :=
  String.mk (trimChars (fun c => cutset.data.contains c) s.data)

/-- Pieces of a character list between the occurrences of the separator `sep`. -/
def splitChars (sep : Char) : List Char → List (List Char)
  | [] => [[]]
  | c :: cs =>
    if c = sep then [] :: splitChars sep cs
    else
      match splitChars sep cs with
      | [] => [[c]]
      | piece :: pieces => (c :: piece) :: pieces

/-- Go's `strings.Split(s, sep)` for a one-character separator. -/
def Split (s : String) (sep : Char) : List String :=
  (splitChars sep s.data).map String.mk

end Strings

/-! ## Data model -/

/-- Go `error` values, identified by their message. -/
structure Error where
  message : String
  deriving DecidableEq, Repr

/-- Outcome of a call returning `(value, error)`, or the panic of a nil dereference. -/
inductive Result (α : Type) where
  | ok (v : α)
  | error (err : Error)
  | nilDeref
  deriving DecidableEq, Repr

/-- Source type `ExportType string`. -/
abbrev ExportType := String

def ExportTypeDownload : ExportType := "download"
def ExportTypeStream : ExportType := "stream"
def ExportTypeTorrentStat : ExportType := "torrent_client_stat"
def ExportTypeSubtitles : ExportType := "subtitles"
def ExportTypeMediaProbe : ExportType := "media_probe"
def ExportTypeAndroid : ExportType := "android_player"

/-- Source variable `ExportTypes`, in declaration order. -/
def ExportTypes : List ExportType :=
  [ExportTypeDownload, ExportTypeStream, ExportTypeTorrentStat,
   ExportTypeSubtitles, ExportTypeMediaProbe, ExportTypeAndroid]

structure ExportGetArgs where
  Types : List ExportType
  deriving DecidableEq, Repr

/-- Interface `ParamGetter`; `Query` answers the empty string for an absent parameter. -/
structure ParamGetter where
  Query : String → String

/-! ## `ExportGetArgsFromParams` -/

/-- The error built by `errors.Errorf("failed to parse export type \"%v\"", kk)`. -/
def parseError (kk : String) : Error :=
  ⟨"failed to parse export type \"" ++ kk ++ "\""⟩

/-- Inner loop of `ExportGetArgsFromParams`: the first declared type equal to `kk`. -/
def lookupType (kk : String) : List ExportType → Option ExportType
  | [] => none
  | t :: ts => if t = kk then some t else lookupType kk ts

/-- Outer loop of `ExportGetArgsFromParams` over the split tokens; `types` accumulates. -/
def parseTokens : List String → List ExportType → Except Error (List ExportType)
  | [], types => .ok types
  | k :: ks, types =>
    let kk := Strings.TrimSpace k
    match lookupType kk ExportTypes with
    | some t => parseTokens ks (types ++ [t])
    | none => .error (parseError kk)

def ExportGetArgsFromParams (g : ParamGetter) : Except Error ExportGetArgs :=
  if g.Query "types" ≠ "" then
    match parseTokens (Strings.Split (g.Query "types") ',') [] with
    | .ok types => .ok { Types := types }
    | .error err => .error err
  else
    .ok { Types := ExportTypes }

/-! ## Items, resources and the response -/

/-- Modelled from the spec: `ListType` is declared outside `export.go`; an item's kind
is one of file and directory. -/
inductive ListType where
  | ListTypeFile
  | ListTypeDirectory
  deriving DecidableEq, Repr

/-- Source type `MediaFormat`, a string classifier. -/
abbrev MediaFormat := String

/-- Modelled from the spec: the constant `Video` is declared outside `export.go`; the
subtitles policy is "media format exactly video". -/
def Video : MediaFormat := "video"

/-- The fields of `ListItem` that `export.go` reads (`Type_` is the Go field `Type`). -/
structure ListItem where
  Type_ : ListType
  PathStr : String
  MediaFormat : MediaFormat
  deriving DecidableEq, Repr

/-- The field of `Resource` that `export.go` reads. -/
structure Resource where
  ID : String
  deriving DecidableEq, Repr

/-- Modelled from the spec: the stream tag is declared outside `export.go` and is
opaque data attached verbatim. -/
structure ExportTag where
  raw : String
  deriving DecidableEq, Repr

/-- Modelled from the spec: the export meta is declared outside `export.go` and is an
opaque descriptor derived from the built URL. -/
structure ExportMeta where
  raw : String
  deriving DecidableEq, Repr

/-- Embedded struct of `ExportItem` holding the `Tag` pointer. -/
structure ExportStreamItem where
  Tag : Option ExportTag := none
  deriving DecidableEq, Repr

/-- Embedded struct of `ExportItem` holding the `Meta` pointer. -/
structure ExportMetaItem where
  Meta : Option ExportMeta := none
  deriving DecidableEq, Repr

/-- Per-type output (`Type_` is the Go field `Type`); unset fields are zero values. -/
structure ExportItem where
  Type_ : String
  URL : String
  ExportStreamItem : ExportStreamItem := {}
  ExportMetaItem : ExportMetaItem := {}
  deriving DecidableEq, Repr

/-- Go `map[string]ExportItem`. -/
abbrev ExportItems := String → Option ExportItem

/-- The empty map literal `map[string]ExportItem{}`. -/
def ExportItems.empty : ExportItems := fun _ => none

/-- Map assignment `items[k] = v`. -/
def ExportItems.set (items : ExportItems) (k : String) (v : ExportItem) : ExportItems :=
  fun k' => if k' = k then some v else items k'

structure ExportResponse where
  Source : ListItem
  ExportItems : ExportItems

/-! ## URLs and the collaborators declared outside `export.go` -/

/-- Modelled from the spec: `MyURL` is declared outside `export.go`. The fields are the
ones of `net/url`'s `URL` that the exporters write (`Path`, `RawQuery`) and that scheme
and domain selection fill (`Scheme`, `Host`); `&MyURL{}` is the all-empty value. -/
structure MyURL where
  Scheme : String := ""
  Host : String := ""
  Path : String := ""
  RawQuery : String := ""
  deriving DecidableEq, Repr

/-- Go `url.Values`, a `map[string][]string`. -/
abbrev Values := String → Option (List String)

/-- The map without keys. -/
def Values.empty : Values := fun _ => none

/-- Go `Values.Set`: replace whatever is stored under `key` by the single `value`. -/
def Values.Set (v : Values) (key value : String) : Values :=
  fun k => if k = key then some [value] else v k

/-- Go `Values.Has`: whether `key` is present. -/
def Values.Has (v : Values) (key : String) : Bool :=
  (v key).isSome

/-- Go `Values.Get`: the first value stored under `key`, or the empty string. -/
def Values.Get (v : Values) (key : String) : String :=
  match v key with
  | some (x :: _) => x
  | _ => ""

/-- Interface `cli.Context`, restricted to the two getters used (`String_`, `Int_` are
the Go methods `String` and `Int`). -/
structure CliContext where
  String_ : String → String
  Int_ : String → Int

/-- The configuration of `URLBuilder` that `AndroidPlayerExporter.Export` copies, with its
method `Build`, whose body is outside `export.go`. `sd` and `cm` are handles to
collaborators that are not inspected here. -/
structure URLBuilder where
  sd : Nat := 0
  cm : Nat := 0
  domain : String := ""
  premiumDomain : String := ""
  apiKey : String := ""
  apiSecret : String := ""
  apiRole : String := ""
  useSubdomains : Bool := true
  subdomainsK8SPool : String := ""
  pathPrefix : String := ""
  Build : Resource → ListItem → ParamGetter → ExportType → Except Error (Option MyURL)

/-- Type `TagBuilder` with its method `Build`, whose body is outside `export.go`. -/
structure TagBuilder where
  Build : Resource → ListItem → ParamGetter → Except Error (Option ExportTag)

/-- Struct `BaseURLBuilder` as the literal in `AndroidPlayerExporter.Export` fills it. -/
structure BaseURLBuilder where
  sd : Nat
  cm : Nat
  r : Resource
  i : ListItem
  g : ParamGetter
  domain : String
  premiumDomain : String
  apiKey : String
  apiSecret : String
  apiRole : String
  useSubdomains : Bool
  subdomainsK8SPool : String
  pathPrefix : String

/-- Methods called by `export.go` whose bodies are outside it: `MyURL.String`,
`MyURL.BuildExportMeta`, `url.ParseQuery`, `url.Values.Encode`,
`BaseURLBuilder.BuildScheme` and `BaseURLBuilder.BuildDomain`. -/
structure Methods where
  urlString : MyURL → String
  buildExportMeta : MyURL → Option ExportMeta
  parseQuery : String → Values
  encode : Values → String
  BuildScheme : BaseURLBuilder → MyURL → Except Error MyURL
  BuildDomain : BaseURLBuilder → MyURL → Except Error MyURL

/-- Go `URL.Query`: the parsed `RawQuery`; parsing the empty string gives the map
without keys (the parsing loop runs only while the remaining query is non-empty). -/
def MyURL.Query (X : Methods) (u : MyURL) : Values :=
  if u.RawQuery = "" then Values.empty else X.parseQuery u.RawQuery

/-- A call to a collaborator, recorded in the order the code makes it. -/
inductive Call where
  | BuildURL (t : ExportType)
  | BuildTag
  | BuildScheme
  | BuildDomain
  deriving DecidableEq, Repr

/-- What one exporter call did: the collaborator calls it made and its outcome. -/
structure Run (α : Type) where
  calls : List Call
  result : Result α

/-! ## The exporters -/

structure BaseExporter where
  ub : URLBuilder
  exportType : ExportType

def BaseExporter.Type_ (s : BaseExporter) : ExportType :=
  s.exportType

def BaseExporter.BuildURL (s : BaseExporter) (r : Resource) (i : ListItem) (g : ParamGetter) :
    Except Error (Option MyURL) :=
  s.ub.Build r i g s.Type_

structure DownloadExporter extends BaseExporter

structure StreamExporter extends BaseExporter where
  tb : TagBuilder

structure MediaProbeExporter extends BaseExporter

structure TorrentStatExporter extends BaseExporter

structure SubtitlesExporter extends BaseExporter

structure AndroidPlayerExporter where
  ub : URLBuilder

def NewDownloadExporter (ub : URLBuilder) : DownloadExporter :=
  { ub := ub, exportType := ExportTypeDownload }

/-- `DownloadExporter.Export`: the URL is not tested against nil before `url.String()`. -/
def DownloadExporter.Export (X : Methods) (s : DownloadExporter) (r : Resource) (i : ListItem)
    (g : ParamGetter) : Run (Option ExportItem) :=
  match s.BuildURL r i g with
  | .error err => ⟨[.BuildURL s.Type_], .error err⟩
  | .ok none => ⟨[.BuildURL s.Type_], .nilDeref⟩
  | .ok (some url) =>
    ⟨[.BuildURL s.Type_],
      .ok (some { Type_ := s.Type_, URL := X.urlString url,
                  ExportMetaItem := { Meta := X.buildExportMeta url } })⟩

def NewStreamExporter (ub : URLBuilder) (tb : TagBuilder) : StreamExporter :=
  { ub := ub, exportType := ExportTypeStream, tb := tb }

/-- The method `Type` that `StreamExporter` declares itself; `BuildURL`, promoted from
`BaseExporter`, still reads the field `exportType`. -/
def StreamExporter.Type_ (_s : StreamExporter) : ExportType :=
  ExportTypeStream

def StreamExporter.MakeExportStreamItem (s : StreamExporter) (r : Resource) (i : ListItem)
    (g : ParamGetter) : Except Error ExportStreamItem :=
  let ei : ExportStreamItem := {}
  match s.tb.Build r i g with
  | .error err => .error err
  | .ok none => .ok ei
  | .ok (some t) => .ok { ei with Tag := some t }

/-- `StreamExporter.Export`: the tag is built before `url.String()` is evaluated, and the
URL is not tested against nil. -/
def StreamExporter.Export (X : Methods) (s : StreamExporter) (r : Resource) (i : ListItem)
    (g : ParamGetter) : Run (Option ExportItem) :=
  if i.MediaFormat = "" then ⟨[], .ok none⟩
  else
    match s.BuildURL r i g with
    | .error err => ⟨[.BuildURL s.exportType], .error err⟩
    | .ok url =>
      match s.MakeExportStreamItem r i g with
      | .error err => ⟨[.BuildURL s.exportType, .BuildTag], .error err⟩
      | .ok ei =>
        match url with
        | none => ⟨[.BuildURL s.exportType, .BuildTag], .nilDeref⟩
        | some url =>
          ⟨[.BuildURL s.exportType, .BuildTag],
            .ok (some { Type_ := s.Type_, URL := X.urlString url, ExportStreamItem := ei,
                        ExportMetaItem := { Meta := X.buildExportMeta url } })⟩

def NewTorrentStatExporter (ub : URLBuilder) : TorrentStatExporter :=
  { ub := ub, exportType := ExportTypeTorrentStat }

def TorrentStatExporter.Export (X : Methods) (s : TorrentStatExporter) (r : Resource)
    (i : ListItem) (g : ParamGetter) : Run (Option ExportItem) :=
  match s.BuildURL r i g with
  | .error err => ⟨[.BuildURL s.Type_], .error err⟩
  | .ok none => ⟨[.BuildURL s.Type_], .ok none⟩
  | .ok (some url) =>
    ⟨[.BuildURL s.Type_], .ok (some { Type_ := s.Type_, URL := X.urlString url })⟩

def videoInfoServiceHostFlag : String := "video-info-host"
def videoInfoServicePortFlag : String := "video-info-port"

/-- `NewSubtitlesExporter`: nil when neither host nor port of the backend is configured. -/
def NewSubtitlesExporter (c : CliContext) (ub : URLBuilder) : Option SubtitlesExporter :=
  if c.String_ videoInfoServiceHostFlag = "" ∧ c.Int_ videoInfoServicePortFlag = 0 then none
  else some { ub := ub, exportType := ExportTypeSubtitles }

def NewAndroidPlayerExporter (ub : URLBuilder) : AndroidPlayerExporter :=
  { ub := ub }

def AndroidPlayerExporter.Type_ (_s : AndroidPlayerExporter) : ExportType :=
  ExportTypeAndroid

/-- The literal `bubc` that `AndroidPlayerExporter.Export` builds first. -/
def AndroidPlayerExporter.bubc (s : AndroidPlayerExporter) (r : Resource) (i : ListItem)
    (g : ParamGetter) : BaseURLBuilder :=
  { sd := s.ub.sd, cm := s.ub.cm, r := r, i := i, g := g, domain := s.ub.domain,
    premiumDomain := s.ub.premiumDomain, apiKey := s.ub.apiKey,
    apiSecret := s.ub.apiSecret, apiRole := s.ub.apiRole,
    useSubdomains := s.ub.useSubdomains, subdomainsK8SPool := s.ub.subdomainsK8SPool,
    pathPrefix := s.ub.pathPrefix }

/-- `AndroidPlayerExporter.Export`. The item is passed by value here, so the test
`i != nil` of the source holds and only its other two conjuncts remain. -/
def AndroidPlayerExporter.Export (X : Methods) (s : AndroidPlayerExporter) (r : Resource)
    (i : ListItem) (g : ParamGetter) : Run (Option ExportItem) :=
  let bubc : BaseURLBuilder := s.bubc r i g
  let u : MyURL := {}
  match X.BuildScheme bubc u with
  | .error err => ⟨[.BuildScheme], .error err⟩
  | .ok u =>
    match X.BuildDomain bubc u with
    | .error err => ⟨[.BuildScheme, .BuildDomain], .error err⟩
    | .ok u =>
      let u := { u with Path := "/resource/" ++ r.ID ++ "/android-player" }
      let q := MyURL.Query X u
      let q :=
        if i.Type_ ≠ ListType.ListTypeDirectory ∧ Strings.Trim i.PathStr "/" ≠ "" then
          Values.Set q "path" (Strings.Trim i.PathStr "/")
        else q
      let u := { u with RawQuery := X.encode q }
      ⟨[.BuildScheme, .BuildDomain],
        .ok (some { Type_ := s.Type_, URL := X.urlString u })⟩

def SubtitlesExporter.Export (X : Methods) (s : SubtitlesExporter) (r : Resource)
    (i : ListItem) (g : ParamGetter) : Run (Option ExportItem) :=
  if i.MediaFormat ≠ Video then ⟨[], .ok none⟩
  else
    match s.BuildURL r i g with
    | .error err => ⟨[.BuildURL s.Type_], .error err⟩
    | .ok none => ⟨[.BuildURL s.Type_], .ok none⟩
    | .ok (some url) =>
      ⟨[.BuildURL s.Type_], .ok (some { Type_ := s.Type_, URL := X.urlString url })⟩

def NewMediaProbeExporter (ub : URLBuilder) : MediaProbeExporter :=
  { ub := ub, exportType := ExportTypeMediaProbe }

def MediaProbeExporter.Export (X : Methods) (s : MediaProbeExporter) (r : Resource)
    (i : ListItem) (g : ParamGetter) : Run (Option ExportItem) :=
  match s.BuildURL r i g with
  | .error err => ⟨[.BuildURL s.Type_], .error err⟩
  | .ok none => ⟨[.BuildURL s.Type_], .ok none⟩
  | .ok (some url) =>
    ⟨[.BuildURL s.Type_], .ok (some { Type_ := s.Type_, URL := X.urlString url })⟩

/-! ## The dispatcher -/

/-- Interface `Exporter`: a value with the methods `Type` and `Export`. -/
structure Exporter where
  Type_ : ExportType
  Export : Resource → ListItem → ParamGetter → Result (Option ExportItem)

def DownloadExporter.toExporter (X : Methods) (s : DownloadExporter) : Exporter :=
  ⟨s.Type_, fun r i g => (s.Export X r i g).result⟩

def StreamExporter.toExporter (X : Methods) (s : StreamExporter) : Exporter :=
  ⟨s.Type_, fun r i g => (s.Export X r i g).result⟩

def TorrentStatExporter.toExporter (X : Methods) (s : TorrentStatExporter) : Exporter :=
  ⟨s.Type_, fun r i g => (s.Export X r i g).result⟩

def SubtitlesExporter.toExporter (X : Methods) (s : SubtitlesExporter) : Exporter :=
  ⟨s.Type_, fun r i g => (s.Export X r i g).result⟩

def MediaProbeExporter.toExporter (X : Methods) (s : MediaProbeExporter) : Exporter :=
  ⟨s.Type_, fun r i g => (s.Export X r i g).result⟩

def AndroidPlayerExporter.toExporter (X : Methods) (s : AndroidPlayerExporter) : Exporter :=
  ⟨s.Type_, fun r i g => (s.Export X r i g).result⟩

structure Export where
  exporters : List Exporter

def NewExport (e : List Exporter) : Export :=
  { exporters := e }

/-- State of the two loops of `Export.Get`: the map built so far and, for the record,
the exporters invoked so far, oldest first. -/
structure GetState where
  items : ExportItems
  invoked : List Exporter

/-- What `Export.Get` did: the exporters it invoked, in order, and what it returned. -/
structure GetRun where
  invoked : List Exporter
  result : Result ExportResponse

/-- Inner loop of `Export.Get`, over the registered exporters, for the requested type `t`.
The left alternative is the early return. -/
def Export.Get.exportersLoop (r : Resource) (i : ListItem) (g : ParamGetter) (t : ExportType) :
    List Exporter → GetState → GetRun ⊕ GetState
  | [], st => .inr st
  | e :: es, st =>
    if e.Type_ = t then
      match e.Export r i g with
      | .error err => .inl ⟨st.invoked ++ [e], .error err⟩
      | .nilDeref => .inl ⟨st.invoked ++ [e], .nilDeref⟩
      | .ok none => exportersLoop r i g t es ⟨st.items, st.invoked ++ [e]⟩
      | .ok (some ex) =>
        exportersLoop r i g t es ⟨ExportItems.set st.items ex.Type_ ex, st.invoked ++ [e]⟩
    else exportersLoop r i g t es st

/-- Outer loop of `Export.Get`, over the requested types. -/
def Export.Get.typesLoop (exporters : List Exporter) (r : Resource) (i : ListItem)
    (g : ParamGetter) : List ExportType → GetState → GetRun ⊕ GetState
  | [], st => .inr st
  | t :: ts, st =>
    match Export.Get.exportersLoop r i g t exporters st with
    | .inl done => .inl done
    | .inr st => typesLoop exporters r i g ts st

def Export.Get (s : Export) (r : Resource) (i : ListItem) (args : ExportGetArgs)
    (g : ParamGetter) : GetRun :=
  match Export.Get.typesLoop s.exporters r i g args.Types ⟨ExportItems.empty, []⟩ with
  | .inl done => done
  | .inr st => ⟨st.invoked, .ok { Source := i, ExportItems := st.items }⟩

/-- Modelled from the spec: the registration of the exporters happens outside `export.go`.
The full exporter set holds one exporter of each type, built by the constructors, the
subtitles exporter being the one `NewSubtitlesExporter` returns when a backend is configured. -/
def registeredExporters (X : Methods) (ub : URLBuilder) (tb : TagBuilder)
    (se : SubtitlesExporter) : List Exporter :=
  [(NewDownloadExporter ub).toExporter X, (NewStreamExporter ub tb).toExporter X,
   (NewTorrentStatExporter ub).toExporter X, se.toExporter X,
   (NewMediaProbeExporter ub).toExporter X, (NewAndroidPlayerExporter ub).toExporter X]

/-! ## Iteration order of `Export.Get` -/

/-- The exporters `Export.Get` reaches, in the order of its two loops: for each requested
type in turn, the registered exporters of that type in registration order. -/
def Export.Get.schedule (exporters : List Exporter) : List ExportType → List Exporter
  | [] => []
  | t :: ts => exporters.filter (fun e => e.Type_ = t) ++ schedule exporters ts

/-- Invoke the exporters of a list one after the other with the loop body of `Export.Get`,
stopping at the first that does not return a value. -/
def Export.Get.invokeAll (r : Resource) (i : ListItem) (g : ParamGetter) :
    List Exporter → GetState → GetRun ⊕ GetState
  | [], st => .inr st
  | e :: es, st =>
    match e.Export r i g with
    | .error err => .inl ⟨st.invoked ++ [e], .error err⟩
    | .nilDeref => .inl ⟨st.invoked ++ [e], .nilDeref⟩
    | .ok none => invokeAll r i g es ⟨st.items, st.invoked ++ [e]⟩
    | .ok (some ex) =>
      invokeAll r i g es ⟨ExportItems.set st.items ex.Type_ ex, st.invoked ++ [e]⟩

/-- Whether the exporter returns a non-nil item whose `Type` field is `k`. -/
def Exporter.produces (e : Exporter) (r : Resource) (i : ListItem) (g : ParamGetter)
    (k : String) : Prop :=
  ∃ item, e.Export r i g = .ok (some item) ∧ item.Type_ = k

/-! ## Concrete instances on which the properties are evaluated -/

namespace Sample

def resource : Resource := { ID := "abc123" }

def fileItem : ListItem :=
  { Type_ := .ListTypeFile, PathStr := "/season1/e01.mkv", MediaFormat := "video" }

def request : ParamGetter := ⟨fun _ => ""⟩

/-- An exporter registered for `t` that returns the item `item`. -/
def constExporter (t : ExportType) (item : ExportItem) : Exporter :=
  ⟨t, fun _ _ _ => .ok (some item)⟩

/-- An exporter registered for `t` that returns nil without error. -/
def silentExporter (t : ExportType) : Exporter :=
  ⟨t, fun _ _ _ => .ok none⟩

/-- An exporter registered for `t` that returns the error `err`. -/
def failingExporter (t : ExportType) (err : Error) : Exporter :=
  ⟨t, fun _ _ _ => .error err⟩

/-- A URL builder that answers every request with one URL under `example.org`. -/
def builder : URLBuilder :=
  { domain := "example.org",
    Build := fun r i _ _ =>
      .ok (some { Scheme := "https", Host := "example.org", Path := "/" ++ r.ID ++ i.PathStr }) }

/-- A URL builder that answers every request with nil and no error. -/
def nilBuilder : URLBuilder :=
  { Build := fun _ _ _ _ => .ok none }

/-- A tag builder that answers with one tag. -/
def tagger : TagBuilder :=
  ⟨fun _ _ _ => .ok (some ⟨"video"⟩)⟩

/-- Concrete bodies for the methods declared outside `export.go`. -/
def methods : Methods :=
  { urlString := fun u =>
      u.Scheme ++ "://" ++ u.Host ++ u.Path ++ (if u.RawQuery = "" then "" else "?" ++ u.RawQuery)
    buildExportMeta := fun u => some ⟨u.Host⟩
    parseQuery := fun _ => Values.empty
    encode := fun q =>
      match q "path" with
      | some (v :: _) => "path=" ++ v
      | _ => ""
    BuildScheme := fun _ u => .ok { u with Scheme := "https" }
    BuildDomain := fun b u => .ok { u with Host := b.domain } }

/-- A context in which the subtitles backend is configured. -/
def context : CliContext :=
  { String_ := fun _ => "video-info", Int_ := fun _ => 8080 }

def directoryItem : ListItem :=
  { Type_ := .ListTypeDirectory, PathStr := "/season1", MediaFormat := "" }

/-- A directory entry that carries a media-format classifier. -/
def classifiedDirectory : ListItem :=
  { Type_ := .ListTypeDirectory, PathStr := "/season1", MediaFormat := "video" }

end Sample

/-! ## Properties of `ExportGetArgsFromParams` -/

theorem lookupType_eq (kk : String) (ts : List ExportType) :
    lookupType kk ts = if kk ∈ ts then some kk else none := by
  induction ts with
  | nil => simp [lookupType]
  | cons t ts ih =>
    by_cases h : t = kk
    · simp [lookupType, h]
    · have h' : ¬ kk = t := fun e => h e.symm
      simp [lookupType, h, h', ih]

theorem parseTokens_ok (ks : List String) (types : List ExportType)
    (h : ∀ k ∈ ks, Strings.TrimSpace k ∈ ExportTypes) :
    parseTokens ks types = .ok (types ++ ks.map Strings.TrimSpace) := by
  induction ks generalizing types with
  | nil => simp [parseTokens]
  | cons k ks ih =>
    have hk : Strings.TrimSpace k ∈ ExportTypes := h k (List.mem_cons_self _ _)
    have hks : ∀ k' ∈ ks, Strings.TrimSpace k' ∈ ExportTypes :=
      fun k' hk' => h k' (List.mem_cons_of_mem _ hk')
    simp only [parseTokens, lookupType_eq, hk, if_true]
    rw [ih _ hks]
    simp

theorem parseTokens_error (ks : List String) (types : List ExportType) (err : Error)
    (h : parseTokens ks types = .error err) :
    ∃ pre kk post, ks.map Strings.TrimSpace = pre ++ kk :: post ∧
      (∀ x ∈ pre, x ∈ ExportTypes) ∧ kk ∉ ExportTypes ∧ err = parseError kk := by
  induction ks generalizing types with
  | nil => simp [parseTokens] at h
  | cons k ks ih =>
    by_cases hk : Strings.TrimSpace k ∈ ExportTypes
    · simp only [parseTokens, lookupType_eq, hk, if_true] at h
      obtain ⟨pre, kk, post, hsplit, hpre, hkk, herr⟩ := ih _ h
      refine ⟨Strings.TrimSpace k :: pre, kk, post, ?_, ?_, hkk, herr⟩
      · simp [hsplit]
      · intro x hx
        rcases List.mem_cons.mp hx with rfl | hx
        · exact hk
        · exact hpre x hx
    · simp only [parseTokens, lookupType_eq, hk, if_false] at h
      refine ⟨[], Strings.TrimSpace k, ks.map Strings.TrimSpace, by simp, by simp, hk, ?_⟩
      cases h
      rfl

theorem parseTokens_ok_inv (ks : List String) (types out : List ExportType)
    (h : parseTokens ks types = .ok out) :
    ∀ k ∈ ks, Strings.TrimSpace k ∈ ExportTypes := by
  induction ks generalizing types with
  | nil => simp
  | cons k ks ih =>
    by_cases hk : Strings.TrimSpace k ∈ ExportTypes
    · simp only [parseTokens, lookupType_eq, hk, if_true] at h
      intro k' hk'
      rcases List.mem_cons.mp hk' with rfl | hk'
      · exact hk
      · exact ih _ h k' hk'
    · simp [parseTokens, lookupType_eq, hk] at h

/-- C1: for a non-empty `types` query, `ExportGetArgsFromParams` succeeds exactly when
every comma-separated token, trimmed of surrounding white space, is one of the six declared
type names; on success `Types` is the list of trimmed tokens in input order; on failure the
error message names the first trimmed token that is not a declared name. The function takes
no exporter, so none is invoked. -/
theorem ExportGetArgsFromParams_nonempty (g : ParamGetter) (h : g.Query "types" ≠ "") :
    ((∃ args, ExportGetArgsFromParams g = .ok args) ↔
      ∀ kk ∈ (Strings.Split (g.Query "types") ',').map Strings.TrimSpace, kk ∈ ExportTypes) ∧
    (∀ args, ExportGetArgsFromParams g = .ok args →
      args.Types = (Strings.Split (g.Query "types") ',').map Strings.TrimSpace) ∧
    (∀ err, ExportGetArgsFromParams g = .error err →
      ∃ pre kk post,
        (Strings.Split (g.Query "types") ',').map Strings.TrimSpace = pre ++ kk :: post ∧
        (∀ x ∈ pre, x ∈ ExportTypes) ∧ kk ∉ ExportTypes ∧ err = parseError kk) := by
  simp only [ExportGetArgsFromParams, h, ne_eq, not_false_eq_true, if_true]
  cases hp : parseTokens (Strings.Split (g.Query "types") ',') [] with
  | ok types =>
    have hall := parseTokens_ok_inv _ _ _ hp
    have hok := parseTokens_ok _ [] hall
    rw [hp] at hok
    refine ⟨⟨fun _ kk hkk => ?_, fun _ => ⟨_, rfl⟩⟩, ?_, ?_⟩
    · obtain ⟨k, hk, rfl⟩ := List.mem_map.mp hkk
      exact hall k hk
    · intro args hargs
      cases hargs
      simpa using hok
    · intro err herr
      cases herr
  | error e =>
    obtain ⟨pre, kk, post, hsplit, hpre, hkk, herr⟩ := parseTokens_error _ _ _ hp
    refine ⟨⟨fun hex => ?_, fun hall => ?_⟩, ?_, ?_⟩
    · obtain ⟨args, hargs⟩ := hex
      cases hargs
    · exfalso
      apply hkk
      apply hall
      rw [hsplit]
      simp
    · intro args hargs
      cases hargs
    · intro err herr'
      cases herr'
      exact ⟨pre, kk, post, hsplit, hpre, hkk, herr⟩

/-- Witness of C1 at the query `stream, download`. -/
theorem ExportGetArgsFromParams_nonempty_witness :
    (⟨fun _ => "stream, download"⟩ : ParamGetter).Query "types" ≠ "" ∧
    ExportGetArgsFromParams ⟨fun _ => "stream, download"⟩ =
      .ok { Types := ["stream", "download"] } :=
  ⟨by decide, by
    obtain ⟨hiff, htypes, _⟩ :=
      ExportGetArgsFromParams_nonempty ⟨fun _ => "stream, download"⟩ (by decide)
    obtain ⟨args, hargs⟩ := hiff.2 (by decide)
    have hlist := (htypes args hargs).trans
      (show (Strings.Split "stream, download" ',').map Strings.TrimSpace
        = ["stream", "download"] by decide)
    rw [hargs]
    cases args
    simp only at hlist
    rw [hlist]⟩

/-- C2: when the `types` parameter is absent or empty, `ExportGetArgsFromParams` returns,
without error, the six declared types in declaration order. -/
theorem ExportGetArgsFromParams_default (g : ParamGetter) (h : g.Query "types" = "") :
    ExportGetArgsFromParams g =
      .ok { Types := ["download", "stream", "torrent_client_stat", "subtitles",
                      "media_probe", "android_player"] } := by
  simp [ExportGetArgsFromParams, h, ExportTypes, ExportTypeDownload, ExportTypeStream,
    ExportTypeTorrentStat, ExportTypeSubtitles, ExportTypeMediaProbe, ExportTypeAndroid]

/-- Witness of C2 at a request without parameters. -/
theorem ExportGetArgsFromParams_default_witness :
    (⟨fun _ => ""⟩ : ParamGetter).Query "types" = "" ∧
    ExportGetArgsFromParams ⟨fun _ => ""⟩ =
      .ok { Types := ["download", "stream", "torrent_client_stat", "subtitles",
                      "media_probe", "android_player"] } :=
  ⟨rfl, ExportGetArgsFromParams_default ⟨fun _ => ""⟩ rfl⟩

/-! ## The loops of `Export.Get` as one pass over the schedule -/

theorem exportersLoop_eq (r : Resource) (i : ListItem) (g : ParamGetter) (t : ExportType)
    (es : List Exporter) (st : GetState) :
    Export.Get.exportersLoop r i g t es st
      = Export.Get.invokeAll r i g (es.filter (fun e => e.Type_ = t)) st := by
  induction es generalizing st with
  | nil => simp [Export.Get.exportersLoop, Export.Get.invokeAll]
  | cons e es ih =>
    by_cases he : e.Type_ = t
    · simp only [Export.Get.exportersLoop, he, if_true, decide_True, List.filter_cons_of_pos,
        Export.Get.invokeAll]
      cases hx : e.Export r i g with
      | error err => rfl
      | nilDeref => rfl
      | ok v =>
        cases v with
        | none => exact ih _
        | some ex => exact ih _
    · simp [Export.Get.exportersLoop, he, ih]

theorem invokeAll_append (r : Resource) (i : ListItem) (g : ParamGetter)
    (a b : List Exporter) (st : GetState) :
    Export.Get.invokeAll r i g (a ++ b) st =
      match Export.Get.invokeAll r i g a st with
      | .inl done => .inl done
      | .inr st' => Export.Get.invokeAll r i g b st' := by
  induction a generalizing st with
  | nil => simp [Export.Get.invokeAll]
  | cons e es ih =>
    simp only [List.cons_append, Export.Get.invokeAll]
    cases hx : e.Export r i g with
    | error err => rfl
    | nilDeref => rfl
    | ok v =>
      cases v with
      | none => exact ih _
      | some ex => exact ih _

theorem typesLoop_eq (exporters : List Exporter) (r : Resource) (i : ListItem)
    (g : ParamGetter) (ts : List ExportType) (st : GetState) :
    Export.Get.typesLoop exporters r i g ts st
      = Export.Get.invokeAll r i g (Export.Get.schedule exporters ts) st := by
  induction ts generalizing st with
  | nil => simp [Export.Get.typesLoop, Export.Get.schedule, Export.Get.invokeAll]
  | cons t ts ih =>
    simp only [Export.Get.typesLoop, Export.Get.schedule, invokeAll_append, exportersLoop_eq]
    cases Export.Get.invokeAll r i g (exporters.filter (fun e => e.Type_ = t)) st with
    | inl done => rfl
    | inr st' => exact ih _

theorem mem_schedule (exporters : List Exporter) (ts : List ExportType) (e : Exporter) :
    e ∈ Export.Get.schedule exporters ts ↔ e ∈ exporters ∧ e.Type_ ∈ ts := by
  induction ts with
  | nil => simp [Export.Get.schedule]
  | cons t ts ih =>
    simp only [Export.Get.schedule, List.mem_append, List.mem_filter, decide_eq_true_eq, ih,
      List.mem_cons]
    constructor
    · rintro (⟨h1, h2⟩ | ⟨h1, h2⟩)
      · exact ⟨h1, Or.inl h2⟩
      · exact ⟨h1, Or.inr h2⟩
    · rintro ⟨h1, h2 | h2⟩
      · exact Or.inl ⟨h1, h2⟩
      · exact Or.inr ⟨h1, h2⟩

/-- A pass that stops early stopped at the first exporter that did not return a value. -/
theorem invokeAll_inl (r : Resource) (i : ListItem) (g : ParamGetter) (l : List Exporter)
    (st : GetState) (done : GetRun) (h : Export.Get.invokeAll r i g l st = .inl done) :
    ∃ pre e post, l = pre ++ e :: post ∧ done.invoked = st.invoked ++ pre ++ [e] ∧
      (∀ x ∈ pre, ∃ v, x.Export r i g = .ok v) ∧
      ((∃ err, e.Export r i g = .error err ∧ done.result = .error err) ∨
        (e.Export r i g = .nilDeref ∧ done.result = .nilDeref)) := by
  induction l generalizing st with
  | nil => simp [Export.Get.invokeAll] at h
  | cons e es ih =>
    simp only [Export.Get.invokeAll] at h
    cases hx : e.Export r i g with
    | error err =>
      rw [hx] at h
      cases h
      exact ⟨[], e, es, rfl, by simp, by simp, Or.inl ⟨err, hx, rfl⟩⟩
    | nilDeref =>
      rw [hx] at h
      cases h
      exact ⟨[], e, es, rfl, by simp, by simp, Or.inr ⟨hx, rfl⟩⟩
    | ok v =>
      rw [hx] at h
      have key : ∀ st1 : GetState, st1.invoked = st.invoked ++ [e] →
          Export.Get.invokeAll r i g es st1 = .inl done →
          ∃ pre e' post, e :: es = pre ++ e' :: post ∧
            done.invoked = st.invoked ++ pre ++ [e'] ∧
            (∀ x ∈ pre, ∃ v, x.Export r i g = .ok v) ∧
            ((∃ err, e'.Export r i g = .error err ∧ done.result = .error err) ∨
              (e'.Export r i g = .nilDeref ∧ done.result = .nilDeref)) := by
        intro st1 hinv h1
        obtain ⟨pre, e', post, hsplit, hdone, hpre, hlast⟩ := ih st1 h1
        refine ⟨e :: pre, e', post, by simp [hsplit], ?_, ?_, hlast⟩
        · rw [hdone, hinv]
          simp
        · intro x hx'
          rcases List.mem_cons.mp hx' with rfl | hx'
          · exact ⟨v, hx⟩
          · exact hpre x hx'
      cases v with
      | none => exact key _ rfl h
      | some ex => exact key _ rfl h

/-- A pass that runs to the end invoked every exporter of the list, each returning a value. -/
theorem invokeAll_inr (r : Resource) (i : ListItem) (g : ParamGetter) (l : List Exporter)
    (st st' : GetState) (h : Export.Get.invokeAll r i g l st = .inr st') :
    st'.invoked = st.invoked ++ l ∧ ∀ x ∈ l, ∃ v, x.Export r i g = .ok v := by
  induction l generalizing st with
  | nil =>
    simp only [Export.Get.invokeAll] at h
    cases h
    simp
  | cons e es ih =>
    simp only [Export.Get.invokeAll] at h
    cases hx : e.Export r i g with
    | error err => rw [hx] at h; cases h
    | nilDeref => rw [hx] at h; cases h
    | ok v =>
      rw [hx] at h
      have key : ∀ st1 : GetState, st1.invoked = st.invoked ++ [e] →
          Export.Get.invokeAll r i g es st1 = .inr st' →
          st'.invoked = st.invoked ++ e :: es ∧
            ∀ x ∈ e :: es, ∃ v, x.Export r i g = .ok v := by
        intro st1 hinv h1
        obtain ⟨h2, h3⟩ := ih st1 h1
        refine ⟨by rw [h2, hinv]; simp, ?_⟩
        intro x hx'
        rcases List.mem_cons.mp hx' with rfl | hx'
        · exact ⟨v, hx⟩
        · exact h3 x hx'
      cases v with
      | none => exact key _ rfl h
      | some ex => exact key _ rfl h

/-- When every exporter of the list returns a value the pass runs to the end. -/
theorem invokeAll_total (r : Resource) (i : ListItem) (g : ParamGetter) (l : List Exporter)
    (st : GetState) (h : ∀ x ∈ l, ∃ v, x.Export r i g = .ok v) :
    ∃ st', Export.Get.invokeAll r i g l st = .inr st' := by
  cases hrun : Export.Get.invokeAll r i g l st with
  | inr st' => exact ⟨st', rfl⟩
  | inl done =>
    exfalso
    obtain ⟨pre, e, post, hsplit, _, _, hlast⟩ := invokeAll_inl r i g l st done hrun
    obtain ⟨v, hv⟩ := h e (by rw [hsplit]; simp)
    rcases hlast with ⟨err, he, _⟩ | ⟨he, _⟩ <;> rw [hv] at he <;> cases he

/-! ## The map built by a pass -/

/-- A pass over exporters none of which produces an item of type `k` leaves key `k` as is. -/
theorem invokeAll_items_frame (r : Resource) (i : ListItem) (g : ParamGetter)
    (l : List Exporter) (st st' : GetState) (k : String)
    (h : Export.Get.invokeAll r i g l st = .inr st')
    (hno : ∀ x ∈ l, ¬ x.produces r i g k) : st'.items k = st.items k := by
  induction l generalizing st with
  | nil =>
    simp only [Export.Get.invokeAll] at h
    cases h
    rfl
  | cons e es ih =>
    have hes : ∀ x ∈ es, ¬ x.produces r i g k := fun x hx => hno x (List.mem_cons_of_mem _ hx)
    simp only [Export.Get.invokeAll] at h
    cases hx : e.Export r i g with
    | error err => rw [hx] at h; cases h
    | nilDeref => rw [hx] at h; cases h
    | ok v =>
      rw [hx] at h
      cases v with
      | none => exact ih ⟨st.items, st.invoked ++ [e]⟩ h hes
      | some ex =>
        have hne : ¬ k = ex.Type_ := fun hk =>
          hno e (List.mem_cons_self _ _) ⟨ex, hx, hk.symm⟩
        rw [ih ⟨ExportItems.set st.items ex.Type_ ex, st.invoked ++ [e]⟩ h hes]
        simp [ExportItems.set, hne]

/-- After a pass, a key is present exactly when it was present before or some exporter of
the list produced an item of that type. -/
theorem invokeAll_items_isSome (r : Resource) (i : ListItem) (g : ParamGetter)
    (l : List Exporter) (st st' : GetState) (k : String)
    (h : Export.Get.invokeAll r i g l st = .inr st') :
    (st'.items k).isSome = true ↔
      ((st.items k).isSome = true ∨ ∃ e ∈ l, e.produces r i g k) := by
  induction l generalizing st with
  | nil =>
    simp only [Export.Get.invokeAll] at h
    cases h
    simp
  | cons e es ih =>
    simp only [Export.Get.invokeAll] at h
    cases hx : e.Export r i g with
    | error err => rw [hx] at h; cases h
    | nilDeref => rw [hx] at h; cases h
    | ok v =>
      rw [hx] at h
      cases v with
      | none =>
        rw [ih _ h]
        constructor
        · rintro (h1 | ⟨x, hx1, hx2⟩)
          · exact Or.inl h1
          · exact Or.inr ⟨x, List.mem_cons_of_mem _ hx1, hx2⟩
        · rintro (h1 | ⟨x, hx1, hx2⟩)
          · exact Or.inl h1
          · rcases List.mem_cons.mp hx1 with rfl | hx1
            · obtain ⟨item, hitem, _⟩ := hx2
              rw [hx] at hitem
              cases hitem
            · exact Or.inr ⟨x, hx1, hx2⟩
      | some ex =>
        rw [ih _ h]
        by_cases hk : k = ex.Type_
        · constructor
          · intro _
            exact Or.inr ⟨e, List.mem_cons_self _ _, ex, hx, hk.symm⟩
          · intro _
            left
            simp [ExportItems.set, hk]
        · constructor
          · rintro (h1 | ⟨x, hx1, hx2⟩)
            · left
              simpa [ExportItems.set, hk] using h1
            · exact Or.inr ⟨x, List.mem_cons_of_mem _ hx1, hx2⟩
          · rintro (h1 | ⟨x, hx1, hx2⟩)
            · left
              simpa [ExportItems.set, hk] using h1
            · rcases List.mem_cons.mp hx1 with rfl | hx1
              · obtain ⟨item, hitem, hty⟩ := hx2
                rw [hx] at hitem
                cases hitem
                exact absurd hty.symm hk
              · exact Or.inr ⟨x, hx1, hx2⟩

/-- A pass keeps the invariant that every entry is stored under its own `Type` field. -/
theorem invokeAll_items_typed (r : Resource) (i : ListItem) (g : ParamGetter)
    (l : List Exporter) (st st' : GetState)
    (h : Export.Get.invokeAll r i g l st = .inr st')
    (hst : ∀ k it, st.items k = some it → it.Type_ = k) :
    ∀ k it, st'.items k = some it → it.Type_ = k := by
  induction l generalizing st with
  | nil =>
    simp only [Export.Get.invokeAll] at h
    cases h
    exact hst
  | cons e es ih =>
    simp only [Export.Get.invokeAll] at h
    cases hx : e.Export r i g with
    | error err => rw [hx] at h; cases h
    | nilDeref => rw [hx] at h; cases h
    | ok v =>
      rw [hx] at h
      cases v with
      | none => exact ih _ h hst
      | some ex =>
        refine ih _ h ?_
        intro k it hk
        by_cases hke : k = ex.Type_
        · simp only [ExportItems.set, hke, if_true, Option.some.injEq] at hk
          rw [← hk, hke]
        · simp only [ExportItems.set, hke, if_false] at hk
          exact hst k it hk

/-- After a pass, the entry of a type is the item of the last exporter that produced one of
that type. -/
theorem invokeAll_items_last (r : Resource) (i : ListItem) (g : ParamGetter)
    (a b : List Exporter) (e : Exporter) (item : ExportItem) (st st' : GetState)
    (h : Export.Get.invokeAll r i g (a ++ e :: b) st = .inr st')
    (he : e.Export r i g = .ok (some item))
    (hb : ∀ x ∈ b, ¬ x.produces r i g item.Type_) :
    st'.items item.Type_ = some item := by
  rw [invokeAll_append] at h
  cases ha : Export.Get.invokeAll r i g a st with
  | inl done => rw [ha] at h; cases h
  | inr st1 =>
    rw [ha] at h
    simp only [Export.Get.invokeAll, he] at h
    rw [invokeAll_items_frame r i g b _ st' item.Type_ h hb]
    simp [ExportItems.set]

theorem Get_eq (s : Export) (r : Resource) (i : ListItem) (args : ExportGetArgs)
    (g : ParamGetter) :
    s.Get r i args g =
      match Export.Get.invokeAll r i g (Export.Get.schedule s.exporters args.Types)
          ⟨ExportItems.empty, []⟩ with
      | .inl done => done
      | .inr st => ⟨st.invoked, .ok { Source := i, ExportItems := st.items }⟩ := by
  simp only [Export.Get, typesLoop_eq]

/-! ## Properties of `Export.Get` -/

/-- Every exporter `Get` invokes is a registered exporter whose type is requested. -/
theorem Get_invoked_mem (s : Export) (r : Resource) (i : ListItem) (args : ExportGetArgs)
    (g : ParamGetter) :
    ∀ e ∈ (s.Get r i args g).invoked, e ∈ s.exporters ∧ e.Type_ ∈ args.Types := by
  rw [Get_eq]
  cases hrun : Export.Get.invokeAll r i g (Export.Get.schedule s.exporters args.Types)
      ⟨ExportItems.empty, []⟩ with
  | inl done =>
    obtain ⟨pre, e0, post, hsplit, hinv, _, _⟩ := invokeAll_inl r i g _ _ done hrun
    simp only [List.nil_append] at hinv
    intro e he
    apply (mem_schedule s.exporters args.Types e).mp
    rw [hsplit]
    simp only [hinv, List.mem_append, List.mem_singleton] at he
    rcases he with he | rfl
    · exact List.mem_append_left _ he
    · simp
  | inr st =>
    obtain ⟨hinv, _⟩ := invokeAll_inr r i g _ _ st hrun
    simp only [List.nil_append] at hinv
    intro e he
    simp only [hinv] at he
    exact (mem_schedule s.exporters args.Types e).mp he

/-- C3: `Export.Get` is all-or-nothing. The exporters it invokes are registered exporters
whose type is requested, taken in schedule order. If an invoked exporter returns an error,
`Get` returns that error and no response, and that exporter is the last one invoked: the
schedule's later exporters are not reached. `Get` returns a response only if it invoked the
whole schedule and every invoked exporter returned without error. -/
theorem Get_all_or_nothing (s : Export) (r : Resource) (i : ListItem) (args : ExportGetArgs)
    (g : ParamGetter) :
    (∀ e ∈ (s.Get r i args g).invoked, e ∈ s.exporters ∧ e.Type_ ∈ args.Types) ∧
    (∀ e ∈ (s.Get r i args g).invoked, ∀ err, e.Export r i g = .error err →
      (s.Get r i args g).result = .error err ∧
      ∃ pre post, Export.Get.schedule s.exporters args.Types = pre ++ e :: post ∧
        (s.Get r i args g).invoked = pre ++ [e]) ∧
    (∀ pre e post err, Export.Get.schedule s.exporters args.Types = pre ++ e :: post →
      (∀ x ∈ pre, ∃ v, x.Export r i g = .ok v) → e.Export r i g = .error err →
      (s.Get r i args g).result = .error err ∧ (s.Get r i args g).invoked = pre ++ [e]) ∧
    (∀ resp, (s.Get r i args g).result = .ok resp →
      (s.Get r i args g).invoked = Export.Get.schedule s.exporters args.Types ∧
      ∀ e ∈ (s.Get r i args g).invoked, ∃ v, e.Export r i g = .ok v) := by
  rw [Get_eq]
  cases hrun : Export.Get.invokeAll r i g (Export.Get.schedule s.exporters args.Types)
      ⟨ExportItems.empty, []⟩ with
  | inl done =>
    obtain ⟨pre, e0, post, hsplit, hinv, hpre, hlast⟩ := invokeAll_inl r i g _ _ done hrun
    simp only [List.nil_append] at hinv
    refine ⟨?_, ?_, ?_, ?_⟩
    · intro e he
      apply (mem_schedule s.exporters args.Types e).mp
      rw [hsplit]
      simp only [hinv, List.mem_append, List.mem_singleton] at he
      rcases he with he | rfl
      · exact List.mem_append_left _ he
      · simp
    · intro e he err herr
      simp only [hinv, List.mem_append, List.mem_singleton] at he
      rcases he with he | rfl
      · obtain ⟨v, hv⟩ := hpre e he
        rw [hv] at herr
        cases herr
      · rcases hlast with ⟨err', he', hres⟩ | ⟨he', _⟩
        · rw [herr] at he'
          cases he'
          exact ⟨hres, pre, post, hsplit, hinv⟩
        · rw [herr] at he'
          cases he'
    · intro pre' e post' err hsplit' hpre' herr
      have hrun' := hrun
      rw [hsplit', invokeAll_append] at hrun'
      obtain ⟨st1, hst1⟩ := invokeAll_total r i g pre' ⟨ExportItems.empty, []⟩ hpre'
      obtain ⟨hinv1, _⟩ := invokeAll_inr r i g pre' _ st1 hst1
      rw [hst1] at hrun'
      simp only [Export.Get.invokeAll, herr] at hrun'
      cases hrun'
      simp [hinv1]
    · intro resp hresp
      rcases hlast with ⟨err', _, hres⟩ | ⟨_, hres⟩ <;> simp only [hres] at hresp <;> cases hresp
  | inr st =>
    obtain ⟨hinv, hall⟩ := invokeAll_inr r i g _ _ st hrun
    simp only [List.nil_append] at hinv
    refine ⟨?_, ?_, ?_, ?_⟩
    · intro e he
      simp only [hinv] at he
      exact (mem_schedule s.exporters args.Types e).mp he
    · intro e he err herr
      simp only [hinv] at he
      obtain ⟨v, hv⟩ := hall e he
      rw [hv] at herr
      cases herr
    · intro pre e post err hsplit _ herr
      obtain ⟨v, hv⟩ := hall e (by rw [hsplit]; simp)
      rw [hv] at herr
      cases herr
    · intro resp _
      refine ⟨hinv, ?_⟩
      intro e he
      simp only [hinv] at he
      exact hall e he

/-- C3 evaluated on three requested exporters of which the second fails: `Get` returns the
error, and the third exporter is not invoked. -/
theorem Get_all_or_nothing_witness :
    ((NewExport [Sample.constExporter "download" { Type_ := "download", URL := "u" },
        Sample.failingExporter "stream" ⟨"no token"⟩,
        Sample.constExporter "subtitles" { Type_ := "subtitles", URL := "v" }]).Get
      Sample.resource Sample.fileItem { Types := ["download", "stream", "subtitles"] }
      Sample.request).result = .error ⟨"no token"⟩ ∧
    ((NewExport [Sample.constExporter "download" { Type_ := "download", URL := "u" },
        Sample.failingExporter "stream" ⟨"no token"⟩,
        Sample.constExporter "subtitles" { Type_ := "subtitles", URL := "v" }]).Get
      Sample.resource Sample.fileItem { Types := ["download", "stream", "subtitles"] }
      Sample.request).invoked =
      [Sample.constExporter "download" { Type_ := "download", URL := "u" }] ++
        [Sample.failingExporter "stream" ⟨"no token"⟩] :=
  (Get_all_or_nothing
    (NewExport [Sample.constExporter "download" { Type_ := "download", URL := "u" },
      Sample.failingExporter "stream" ⟨"no token"⟩,
      Sample.constExporter "subtitles" { Type_ := "subtitles", URL := "v" }])
    Sample.resource Sample.fileItem { Types := ["download", "stream", "subtitles"] }
    Sample.request).2.2.1
    [Sample.constExporter "download" { Type_ := "download", URL := "u" }]
    (Sample.failingExporter "stream" ⟨"no token"⟩)
    [Sample.constExporter "subtitles" { Type_ := "subtitles", URL := "v" }]
    ⟨"no token"⟩ rfl
    (by
      intro x hx
      rw [List.mem_singleton] at hx
      subst hx
      exact ⟨_, rfl⟩)
    rfl

/-- C4: a nil result of an exporter is not an error and adds no key. When every invoked
exporter returns without error, `Get` returns a response that echoes the source item, in
which a key is present exactly when some registered exporter of a requested type returned a
non-nil item with that `Type` field; when every such exporter returns nil the map is empty. -/
theorem Get_nil_result_omitted (s : Export) (r : Resource) (i : ListItem)
    (args : ExportGetArgs) (g : ParamGetter)
    (h : ∀ e ∈ (s.Get r i args g).invoked, ∃ v, e.Export r i g = .ok v) :
    ∃ resp, (s.Get r i args g).result = .ok resp ∧ resp.Source = i ∧
      (∀ k, (resp.ExportItems k).isSome = true ↔
        ∃ e ∈ s.exporters, e.Type_ ∈ args.Types ∧
          ∃ item, e.Export r i g = .ok (some item) ∧ item.Type_ = k) ∧
      ((∀ e ∈ s.exporters, e.Type_ ∈ args.Types → e.Export r i g = .ok none) →
        ∀ k, resp.ExportItems k = none) := by
  rw [Get_eq] at h ⊢
  cases hrun : Export.Get.invokeAll r i g (Export.Get.schedule s.exporters args.Types)
      ⟨ExportItems.empty, []⟩ with
  | inl done =>
    exfalso
    rw [hrun] at h
    obtain ⟨pre, e0, post, _, hinv, _, hlast⟩ := invokeAll_inl r i g _ _ done hrun
    obtain ⟨v, hv⟩ := h e0 (by simp [hinv])
    rcases hlast with ⟨err, he, _⟩ | ⟨he, _⟩ <;> rw [hv] at he <;> cases he
  | inr st =>
    have hkeys : ∀ k, (st.items k).isSome = true ↔
        ∃ e ∈ s.exporters, e.Type_ ∈ args.Types ∧
          ∃ item, e.Export r i g = .ok (some item) ∧ item.Type_ = k := by
      intro k
      rw [invokeAll_items_isSome r i g _ _ st k hrun]
      simp only [ExportItems.empty, Option.isSome_none, Bool.false_eq_true, false_or,
        mem_schedule, Exporter.produces]
      constructor
      · rintro ⟨e, ⟨h1, h2⟩, h3⟩
        exact ⟨e, h1, h2, h3⟩
      · rintro ⟨e, h1, h2, h3⟩
        exact ⟨e, ⟨h1, h2⟩, h3⟩
    refine ⟨⟨i, st.items⟩, rfl, rfl, hkeys, ?_⟩
    intro hnone k
    cases hk : st.items k with
    | none => exact hk
    | some it =>
      exfalso
      obtain ⟨e, h1, h2, item, h3, _⟩ := (hkeys k).mp (by simp [hk])
      rw [hnone e h1 h2] at h3
      cases h3

/-- Witness of C4: one exporter that declines and one that produces, both requested. -/
theorem Get_nil_result_omitted_witness :
    ∃ resp,
      ((NewExport [Sample.silentExporter "stream",
          Sample.constExporter "download" { Type_ := "download", URL := "u" }]).Get
        Sample.resource Sample.fileItem { Types := ["download", "stream"] }
        Sample.request).result = .ok resp ∧
      resp.Source = Sample.fileItem ∧
      (resp.ExportItems "download").isSome = true ∧
      (resp.ExportItems "stream").isSome = false := by
  obtain ⟨resp, hres, hsrc, hkeys, _⟩ :=
    Get_nil_result_omitted
      (NewExport [Sample.silentExporter "stream",
        Sample.constExporter "download" { Type_ := "download", URL := "u" }])
      Sample.resource Sample.fileItem { Types := ["download", "stream"] } Sample.request
      (by
        intro e he
        have hmem := Get_invoked_mem _ _ _ _ _ e he
        simp only [NewExport, List.mem_cons, List.mem_singleton, List.not_mem_nil,
          or_false] at hmem
        rcases hmem.1 with rfl | rfl
        · exact ⟨_, rfl⟩
        · exact ⟨_, rfl⟩)
  refine ⟨resp, hres, hsrc, ?_, ?_⟩
  · rw [hkeys]
    exact ⟨Sample.constExporter "download" { Type_ := "download", URL := "u" },
      by simp [NewExport], by simp [Sample.constExporter], _, rfl, rfl⟩
  · rw [Bool.eq_false_iff]
    intro hsome
    obtain ⟨e, he, _, item, hitem, hty⟩ := (hkeys "stream").mp hsome
    simp only [NewExport, List.mem_cons, List.mem_singleton, List.not_mem_nil,
      or_false] at he
    rcases he with rfl | rfl
    · cases hitem
    · simp only [Sample.constExporter] at hitem
      cases hitem
      exact absurd hty (by decide)

theorem exists_last_occurrence (t : ExportType) (ts : List ExportType) (h : t ∈ ts) :
    ∃ before after, ts = before ++ t :: after ∧ t ∉ after := by
  induction ts with
  | nil => cases h
  | cons x xs ih =>
    by_cases hx : t ∈ xs
    · obtain ⟨before, after, hsplit, hnot⟩ := ih hx
      exact ⟨x :: before, after, by simp [hsplit], hnot⟩
    · rcases List.mem_cons.mp h with rfl | h'
      · exact ⟨[], xs, rfl, hx⟩
      · exact absurd h' hx

theorem schedule_append (exporters : List Exporter) (a b : List ExportType) :
    Export.Get.schedule exporters (a ++ b)
      = Export.Get.schedule exporters a ++ Export.Get.schedule exporters b := by
  induction a with
  | nil => simp [Export.Get.schedule]
  | cons x xs ih => simp [Export.Get.schedule, ih]

/-- C5, as amended: last write wins among the exporters of one requested type. When `Get`
returns a response, `e` is the exporter latest in registration order that is registered for
the requested type `t` and produces an item of type `t`, and no exporter registered for
another requested type produces an item of type `t`, the response holds exactly the item of
`e` under `t`. Every entry is stored under its own `Type` field, so a type has at most one
item, and an item of type `t` produced earlier is found in the response only where it is
the item of `e`. -/
theorem Get_last_write_wins (s : Export) (r : Resource) (i : ListItem) (args : ExportGetArgs)
    (g : ParamGetter) (resp : ExportResponse) (t : ExportType)
    (pre post : List Exporter) (e : Exporter) (item : ExportItem)
    (hres : (s.Get r i args g).result = .ok resp)
    (ht : t ∈ args.Types)
    (hsplit : s.exporters = pre ++ e :: post)
    (het : e.Type_ = t)
    (he : e.Export r i g = .ok (some item))
    (hitem : item.Type_ = t)
    (hpost : ∀ x ∈ post, x.Type_ = t → ¬ x.produces r i g t)
    (hother : ∀ x ∈ s.exporters, x.Type_ ∈ args.Types → x.Type_ ≠ t → ¬ x.produces r i g t) :
    resp.ExportItems t = some item ∧
    (∀ k it, resp.ExportItems k = some it → it.Type_ = k) ∧
    (∀ x ∈ pre, ∀ it, x.Export r i g = .ok (some it) → it.Type_ = t →
      ∀ k, resp.ExportItems k = some it → k = t ∧ it = item) := by
  rw [Get_eq] at hres
  cases hrun : Export.Get.invokeAll r i g (Export.Get.schedule s.exporters args.Types)
      ⟨ExportItems.empty, []⟩ with
  | inl done =>
    exfalso
    rw [hrun] at hres
    obtain ⟨_, _, _, _, _, _, hlast⟩ := invokeAll_inl r i g _ _ done hrun
    rcases hlast with ⟨err, _, hd⟩ | ⟨_, hd⟩ <;> rw [hd] at hres <;> cases hres
  | inr st =>
    rw [hrun] at hres
    simp only [Result.ok.injEq] at hres
    subst hres
    simp only
    have htyped : ∀ k it, st.items k = some it → it.Type_ = k :=
      invokeAll_items_typed r i g _ _ st hrun (by intro k it hk; cases hk)
    have hwin : st.items t = some item := by
      obtain ⟨before, after, hts, hnot⟩ := exists_last_occurrence t args.Types ht
      have hsched : Export.Get.schedule s.exporters args.Types =
          (Export.Get.schedule s.exporters before ++ pre.filter (fun x => x.Type_ = t))
            ++ e :: (post.filter (fun x => x.Type_ = t)
              ++ Export.Get.schedule s.exporters after) := by
        rw [hts, schedule_append, hsplit]
        simp [Export.Get.schedule, List.filter_append, het]
      rw [hsched] at hrun
      rw [← hitem]
      apply invokeAll_items_last r i g _ _ e item _ st hrun he
      intro x hx
      rw [hitem]
      rcases List.mem_append.mp hx with hx | hx
      · obtain ⟨hx1, hx2⟩ := List.mem_filter.mp hx
        exact hpost x hx1 (by simpa using hx2)
      · obtain ⟨hx1, hx2⟩ := (mem_schedule s.exporters after x).mp hx
        apply hother x hx1
        · rw [hts]
          simp [hx2]
        · intro hxt
          exact hnot (hxt ▸ hx2)
    refine ⟨hwin, htyped, ?_⟩
    intro x _ it _ hty k hk
    have hkt : k = t := by rw [← htyped k it hk, hty]
    subst hkt
    rw [hwin] at hk
    exact ⟨rfl, (Option.some.inj hk).symm⟩

/-- Witness of C5: two exporters registered for `download`, both producing. -/
theorem Get_last_write_wins_witness :
    ∃ resp,
      ((NewExport [Sample.constExporter "download" { Type_ := "download", URL := "first" },
          Sample.constExporter "download" { Type_ := "download", URL := "second" }]).Get
        Sample.resource Sample.fileItem { Types := ["download"] } Sample.request).result
        = .ok resp ∧
      resp.ExportItems "download" = some { Type_ := "download", URL := "second" } :=
  ⟨_, rfl,
    (Get_last_write_wins
      (NewExport [Sample.constExporter "download" { Type_ := "download", URL := "first" },
        Sample.constExporter "download" { Type_ := "download", URL := "second" }])
      Sample.resource Sample.fileItem { Types := ["download"] } Sample.request _ "download"
      [Sample.constExporter "download" { Type_ := "download", URL := "first" }] []
      (Sample.constExporter "download" { Type_ := "download", URL := "second" })
      { Type_ := "download", URL := "second" }
      rfl (by simp) rfl rfl rfl rfl (by simp)
      (by
        intro x hx _ hne
        simp only [NewExport, List.mem_cons, List.mem_singleton, List.not_mem_nil,
          or_false] at hx
        rcases hx with rfl | rfl <;> exact absurd rfl hne)).1⟩

/-- Counterexample to C5 as stated: two exporters registered for the requested type
`download` each produce a `download` item, and the response holds under `download` the item
of neither. An exporter registered for `stream`, first in registration order, returns an
item whose `Type` field is `download`; `stream` is requested after `download`, so that item
is written last. -/
theorem Get_last_write_wins_counterexample :
    ∃ resp,
      ((NewExport [Sample.constExporter "stream" { Type_ := "download", URL := "zeroth" },
          Sample.constExporter "download" { Type_ := "download", URL := "first" },
          Sample.constExporter "download" { Type_ := "download", URL := "second" }]).Get
        Sample.resource Sample.fileItem { Types := ["download", "stream"] }
        Sample.request).result = .ok resp ∧
      resp.ExportItems "download" = some { Type_ := "download", URL := "zeroth" } ∧
      resp.ExportItems "download" ≠ some { Type_ := "download", URL := "second" } :=
  ⟨_, rfl, by decide, by decide⟩

/-! ## Properties of the exporters -/

/-- C6: for an item whose media-format classifier is empty `StreamExporter.Export` returns
nil and no error, and calls neither the URL builder nor the tag builder; for an item with a
non-empty classifier, when the URL builder returns a URL and the tag builder returns
without error, it returns an item of type `stream` whose URL is the string of the built
URL, whose meta is derived from that URL, and whose tag is the tag builder's result, absent
when that result is nil. -/
theorem StreamExporter_Export (X : Methods) (s : StreamExporter) (r : Resource) (i : ListItem)
    (g : ParamGetter) :
    (i.MediaFormat = "" → s.Export X r i g = ⟨[], .ok none⟩) ∧
    (i.MediaFormat ≠ "" → ∀ url t, s.BuildURL r i g = .ok (some url) →
      s.tb.Build r i g = .ok t →
      (s.Export X r i g).result =
        .ok (some { Type_ := "stream", URL := X.urlString url,
                    ExportStreamItem := { Tag := t },
                    ExportMetaItem := { Meta := X.buildExportMeta url } })) := by
  constructor
  · intro h
    simp [StreamExporter.Export, h]
  · intro h url t hurl htag
    cases t <;>
      simp [StreamExporter.Export, h, hurl, htag, StreamExporter.MakeExportStreamItem,
        StreamExporter.Type_, ExportTypeStream]

/-- C6 evaluated on a video file, where builder and tagger answer, and on a directory
without classifier, where no collaborator is called. -/
theorem StreamExporter_Export_witness :
    ((NewStreamExporter Sample.builder Sample.tagger).Export Sample.methods Sample.resource
        Sample.fileItem Sample.request).result =
      .ok (some { Type_ := "stream", URL := "https://example.org/abc123/season1/e01.mkv",
                  ExportStreamItem := { Tag := some ⟨"video"⟩ },
                  ExportMetaItem := { Meta := some ⟨"example.org"⟩ } }) ∧
    (NewStreamExporter Sample.builder Sample.tagger).Export Sample.methods Sample.resource
        Sample.directoryItem Sample.request = ⟨[], .ok none⟩ :=
  ⟨((StreamExporter_Export Sample.methods (NewStreamExporter Sample.builder Sample.tagger)
      Sample.resource Sample.fileItem Sample.request).2 (by decide) _ _ rfl rfl).trans
      (by decide),
    (StreamExporter_Export Sample.methods (NewStreamExporter Sample.builder Sample.tagger)
      Sample.resource Sample.directoryItem Sample.request).1 rfl⟩

/-- When the URL builder returns a non-nil URL without error, `DownloadExporter.Export`
returns, for every resource and item, a non-nil item of type `download` carrying the string
of the built URL and the export meta derived from it. -/
theorem DownloadExporter_Export_built (X : Methods) (ub : URLBuilder) (r : Resource)
    (i : ListItem) (g : ParamGetter) (url : MyURL)
    (h : ub.Build r i g ExportTypeDownload = .ok (some url)) :
    ((NewDownloadExporter ub).Export X r i g).result =
      .ok (some { Type_ := "download", URL := X.urlString url,
                  ExportMetaItem := { Meta := X.buildExportMeta url } }) := by
  have h' : ub.Build r i g "download" = .ok (some url) := h
  simp [DownloadExporter.Export, BaseExporter.BuildURL, BaseExporter.Type_,
    NewDownloadExporter, h', ExportTypeDownload]

/-- C7: the code at the failing input. The URL builder returns nil without error, the value
the claim names as not applicable. `DownloadExporter.Export` does not test the URL against
nil: it calls `String` through the nil URL and returns no item, where the claim promises a
non-nil item and no dereference of a missing URL. At the same input the three exporters that
test `url == nil` before `url.String()` (torrent stat, media probe, subtitles) return nil
without error, and with a builder that returns a URL the download exporter returns the
item the claim describes. -/
theorem DownloadExporter_Export_nil_url :
    Sample.nilBuilder.Build Sample.resource Sample.fileItem Sample.request ExportTypeDownload
      = .ok none ∧
    ((NewDownloadExporter Sample.nilBuilder).Export Sample.methods Sample.resource
        Sample.fileItem Sample.request).result = .nilDeref ∧
    ((NewTorrentStatExporter Sample.nilBuilder).Export Sample.methods Sample.resource
        Sample.fileItem Sample.request).result = .ok none ∧
    ((NewMediaProbeExporter Sample.nilBuilder).Export Sample.methods Sample.resource
        Sample.fileItem Sample.request).result = .ok none ∧
    (SubtitlesExporter.Export Sample.methods
        { ub := Sample.nilBuilder, exportType := ExportTypeSubtitles }
        Sample.resource Sample.fileItem Sample.request).result = .ok none ∧
    ((NewDownloadExporter Sample.builder).Export Sample.methods Sample.resource Sample.fileItem
        Sample.request).result =
      .ok (some { Type_ := "download", URL := "https://example.org/abc123/season1/e01.mkv",
                  ExportMetaItem := { Meta := some ⟨"example.org"⟩ } }) :=
  ⟨rfl, rfl, rfl, rfl, rfl,
    (DownloadExporter_Export_built Sample.methods Sample.builder Sample.resource
      Sample.fileItem Sample.request _ rfl).trans (by decide)⟩

/-- C8: whenever scheme selection and domain selection succeed, `AndroidPlayerExporter.Export`
returns a non-nil item of type `android_player`. The URL it turns into a string has the
selected scheme and domain, the path `/resource/` + resource ID + `/android-player`
whatever the item's path and the configured path prefix are, and the encoding of a query
that holds the key `path` exactly when the item is not a directory and its path with
leading and trailing `/` removed is non-empty; the value is then that trimmed path, and the
query holds no other key. -/
theorem AndroidPlayerExporter_Export (X : Methods) (s : AndroidPlayerExporter) (r : Resource)
    (i : ListItem) (g : ParamGetter) (sch dom : String)
    (hs : X.BuildScheme (s.bubc r i g) {} = .ok { Scheme := sch })
    (hd : X.BuildDomain (s.bubc r i g) { Scheme := sch } = .ok { Scheme := sch, Host := dom }) :
    ∃ q : Values,
      (s.Export X r i g).result =
        .ok (some { Type_ := "android_player",
                    URL := X.urlString
                      { Scheme := sch, Host := dom,
                        Path := "/resource/" ++ r.ID ++ "/android-player",
                        RawQuery := X.encode q } }) ∧
      (q.Has "path" = true ↔
        (i.Type_ ≠ ListType.ListTypeDirectory ∧ Strings.Trim i.PathStr "/" ≠ "")) ∧
      (q.Has "path" = true → q "path" = some [Strings.Trim i.PathStr "/"]) ∧
      (∀ k, k ≠ "path" → q k = none) := by
  by_cases hc : i.Type_ ≠ ListType.ListTypeDirectory ∧ Strings.Trim i.PathStr "/" ≠ ""
  · refine ⟨Values.Set Values.empty "path" (Strings.Trim i.PathStr "/"), ?_, ?_, ?_, ?_⟩
    · simp only [AndroidPlayerExporter.Export, hs, hd, MyURL.Query, if_true,
        AndroidPlayerExporter.Type_, ExportTypeAndroid]
      rw [if_pos hc]
    · simp [Values.Has, Values.Set, hc]
    · intro _
      simp [Values.Set]
    · intro k hk
      simp [Values.Set, Values.empty, hk]
  · refine ⟨Values.empty, ?_, ?_, ?_, ?_⟩
    · simp only [AndroidPlayerExporter.Export, hs, hd, MyURL.Query, if_true,
        AndroidPlayerExporter.Type_, ExportTypeAndroid]
      rw [if_neg hc]
    · simp [Values.Has, Values.empty, hc]
    · intro h
      simp [Values.Has, Values.empty] at h
    · intro k _
      rfl

/-- Witness of C8: a file item below the resource root. -/
theorem AndroidPlayerExporter_Export_witness :
    ((NewAndroidPlayerExporter Sample.builder).Export Sample.methods Sample.resource
        Sample.fileItem Sample.request).result =
      .ok (some { Type_ := "android_player",
                  URL := "https://example.org/resource/abc123/android-player?path=season1/e01.mkv" }) := by
  obtain ⟨q, hres, hiff, hval, _⟩ :=
    AndroidPlayerExporter_Export Sample.methods (NewAndroidPlayerExporter Sample.builder)
      Sample.resource Sample.fileItem Sample.request "https" "example.org" rfl rfl
  have hp : q "path" = some ["season1/e01.mkv"] :=
    (hval (hiff.2 ⟨by decide, by decide⟩)).trans (by decide)
  rw [hres]
  simp only [Sample.methods, hp]
  decide

/-- C10: `SubtitlesExporter.Export` yields a result only for video. For an item whose media
format is not `video` it returns nil and no error without calling the URL builder. For an
item whose media format is `video` it returns an item of type `subtitles` with the string
of the built URL when the builder returns a URL, nil when the builder returns nil, and the
builder's error otherwise; so it returns an item exactly when the builder returns a URL. -/
theorem SubtitlesExporter_Export (X : Methods) (c : CliContext) (ub : URLBuilder)
    (s : SubtitlesExporter) (r : Resource) (i : ListItem) (g : ParamGetter)
    (hs : NewSubtitlesExporter c ub = some s) :
    (i.MediaFormat ≠ "video" → s.Export X r i g = ⟨[], .ok none⟩) ∧
    (i.MediaFormat = "video" →
      (∀ url, ub.Build r i g "subtitles" = .ok (some url) →
        (s.Export X r i g).result =
          .ok (some { Type_ := "subtitles", URL := X.urlString url })) ∧
      (ub.Build r i g "subtitles" = .ok none → (s.Export X r i g).result = .ok none) ∧
      (∀ err, ub.Build r i g "subtitles" = .error err →
        (s.Export X r i g).result = .error err) ∧
      ((∃ item, (s.Export X r i g).result = .ok (some item)) ↔
        ∃ url, ub.Build r i g "subtitles" = .ok (some url))) := by
  have hs' : s = { ub := ub, exportType := ExportTypeSubtitles } := by
    unfold NewSubtitlesExporter at hs
    split at hs
    · cases hs
    · exact (Option.some.inj hs).symm
  subst hs'
  constructor
  · intro h
    simp [SubtitlesExporter.Export, Video, h]
  · intro h
    cases hb : ub.Build r i g "subtitles" with
    | error err =>
      simp [SubtitlesExporter.Export, Video, h, BaseExporter.BuildURL, BaseExporter.Type_,
        ExportTypeSubtitles, hb]
    | ok v =>
      cases v <;>
        simp [SubtitlesExporter.Export, Video, h, BaseExporter.BuildURL, BaseExporter.Type_,
          ExportTypeSubtitles, hb]

/-- Witness of C10: a video file, a configured backend and a builder that returns a URL. -/
theorem SubtitlesExporter_Export_witness :
    NewSubtitlesExporter Sample.context Sample.builder
      = some { ub := Sample.builder, exportType := ExportTypeSubtitles } ∧
    (SubtitlesExporter.Export Sample.methods
        { ub := Sample.builder, exportType := ExportTypeSubtitles }
        Sample.resource Sample.fileItem Sample.request).result =
      .ok (some { Type_ := "subtitles",
                  URL := "https://example.org/abc123/season1/e01.mkv" }) :=
  ⟨rfl,
    (((SubtitlesExporter_Export Sample.methods Sample.context Sample.builder
        { ub := Sample.builder, exportType := ExportTypeSubtitles }
        Sample.resource Sample.fileItem Sample.request rfl).2 rfl).1 _ rfl).trans (by decide)⟩

/-! ## The full exporter set on a directory item -/

/-- C9, as amended: for every item of kind directory whose media-format classifier is empty,
resolving all six export types with the full exporter set, URL construction succeeding,
gives a response in which `android_player` is present with an empty query, `stream` and
`subtitles` are absent, and `download` is present. -/
theorem Get_directory_item (X : Methods) (c : CliContext) (ub : URLBuilder) (tb : TagBuilder)
    (se : SubtitlesExporter) (r : Resource) (i : ListItem) (g : ParamGetter)
    (sch dom : String) (ud : MyURL)
    (hdir : i.Type_ = ListType.ListTypeDirectory)
    (hmf : i.MediaFormat = "")
    (hse : NewSubtitlesExporter c ub = some se)
    (hdl : ub.Build r i g ExportTypeDownload = .ok (some ud))
    (hts : ∃ u, ub.Build r i g ExportTypeTorrentStat = .ok u)
    (hmp : ∃ u, ub.Build r i g ExportTypeMediaProbe = .ok u)
    (hs : X.BuildScheme ((NewAndroidPlayerExporter ub).bubc r i g) {} = .ok { Scheme := sch })
    (hd : X.BuildDomain ((NewAndroidPlayerExporter ub).bubc r i g) { Scheme := sch }
      = .ok { Scheme := sch, Host := dom }) :
    ∃ resp,
      ((NewExport (registeredExporters X ub tb se)).Get r i { Types := ExportTypes } g).result
        = .ok resp ∧
      resp.ExportItems "android_player" =
        some { Type_ := "android_player",
               URL := X.urlString
                 { Scheme := sch, Host := dom,
                   Path := "/resource/" ++ r.ID ++ "/android-player",
                   RawQuery := X.encode Values.empty } } ∧
      resp.ExportItems "stream" = none ∧
      resp.ExportItems "subtitles" = none ∧
      resp.ExportItems "download" =
        some { Type_ := "download", URL := X.urlString ud,
               ExportMetaItem := { Meta := X.buildExportMeta ud } } := by
  have hse' : se = { ub := ub, exportType := ExportTypeSubtitles } := by
    unfold NewSubtitlesExporter at hse
    split at hse
    · cases hse
    · exact (Option.some.inj hse).symm
  subst hse'
  obtain ⟨uts, hts⟩ := hts
  obtain ⟨ump, hmp⟩ := hmp
  have hdl' : ub.Build r i g "download" = .ok (some ud) := hdl
  have hts' : ub.Build r i g "torrent_client_stat" = .ok uts := hts
  have hmp' : ub.Build r i g "media_probe" = .ok ump := hmp
  have hvid : ¬ ("" : String) = "video" := by decide
  cases uts <;> cases ump <;>
    simp [Export.Get, Export.Get.typesLoop, Export.Get.exportersLoop, registeredExporters,
      NewExport, ExportTypes, ExportTypeDownload, ExportTypeStream, ExportTypeTorrentStat,
      ExportTypeSubtitles, ExportTypeMediaProbe, ExportTypeAndroid,
      DownloadExporter.toExporter, StreamExporter.toExporter, TorrentStatExporter.toExporter,
      SubtitlesExporter.toExporter, MediaProbeExporter.toExporter,
      AndroidPlayerExporter.toExporter, NewDownloadExporter, NewStreamExporter,
      NewTorrentStatExporter, NewMediaProbeExporter, BaseExporter.Type_,
      StreamExporter.Type_, AndroidPlayerExporter.Type_, DownloadExporter.Export,
      StreamExporter.Export, TorrentStatExporter.Export, SubtitlesExporter.Export,
      MediaProbeExporter.Export, AndroidPlayerExporter.Export, BaseExporter.BuildURL,
      hdl', hts', hmp', hs, hd, hmf, hdir, hvid, Video, MyURL.Query, ExportItems.set,
      ExportItems.empty]

/-- Witness of C9 as amended: a directory without classifier, every collaborator answering. -/
theorem Get_directory_item_witness :
    ∃ resp,
      ((NewExport (registeredExporters Sample.methods Sample.builder Sample.tagger
          { ub := Sample.builder, exportType := ExportTypeSubtitles })).Get
        Sample.resource Sample.directoryItem { Types := ExportTypes } Sample.request).result
        = .ok resp ∧
      resp.ExportItems "android_player" =
        some { Type_ := "android_player",
               URL := "https://example.org/resource/abc123/android-player" } ∧
      resp.ExportItems "stream" = none ∧
      resp.ExportItems "subtitles" = none ∧
      resp.ExportItems "download" =
        some { Type_ := "download", URL := "https://example.org/abc123/season1",
               ExportMetaItem := { Meta := some ⟨"example.org"⟩ } } := by
  obtain ⟨resp, hres, hand, hstr, hsub, hdl⟩ :=
    Get_directory_item Sample.methods Sample.context Sample.builder Sample.tagger
      { ub := Sample.builder, exportType := ExportTypeSubtitles }
      Sample.resource Sample.directoryItem Sample.request "https" "example.org"
      { Scheme := "https", Host := "example.org", Path := "/abc123/season1" }
      rfl rfl rfl rfl ⟨_, rfl⟩ ⟨_, rfl⟩ rfl rfl
  exact ⟨resp, hres, hand.trans (by decide), hstr, hsub, hdl.trans (by decide)⟩

/-- Counterexample to C9 as stated: a directory item that carries the classifier `video`.
With the full exporter set and every URL built, the response holds `stream` and
`subtitles`. -/
theorem Get_directory_item_counterexample :
    ∃ resp,
      Sample.classifiedDirectory.Type_ = ListType.ListTypeDirectory ∧
      ((NewExport (registeredExporters Sample.methods Sample.builder Sample.tagger
          { ub := Sample.builder, exportType := ExportTypeSubtitles })).Get
        Sample.resource Sample.classifiedDirectory { Types := ExportTypes }
        Sample.request).result = .ok resp ∧
      resp.ExportItems "stream" =
        some { Type_ := "stream", URL := "https://example.org/abc123/season1",
               ExportStreamItem := { Tag := some ⟨"video"⟩ },
               ExportMetaItem := { Meta := some ⟨"example.org"⟩ } } ∧
      resp.ExportItems "subtitles" =
        some { Type_ := "subtitles", URL := "https://example.org/abc123/season1" } :=
  ⟨_, rfl, rfl, by decide, by decide⟩

end Services
